import Mathlib

/-!
Shallow embedding of `pyxb/Namespace.py` (PyXB-X): the per-URI namespace
registry, category maps, the deferred-resolution engine, the dependency
orderer, pickle-based caching and the `NamespaceContext` qualified-name
machinery.  Python object identity is modelled by a numeric `id` field
allocated from a counter in the explicit state; the process-wide registry
`Namespace.__Registry` becomes an association list from URI to namespace
value, and in-place mutation of a registered instance becomes an update of
its registry slot (the slot plays the role of the heap cell).
-/

namespace PyxbNamespace

/-- One `Namespace` instance.  `id` models Python object identity,
`absentId` models `__absentNamespaceID`, and `categoryMap` models the
`_NamespaceCategory_mixin.__categoryMap` dict (category name to a
`NamedObjectMap` whose entries map a local name to a component, the
component itself being modelled by its identity). -/
structure NS where
  id : Nat
  uri : Option String
  absentId : Nat
  boundPfx : Option String
  schemaLocation : Option String
  description : Option String
  modulePath : Option String
  isBuiltin : Bool
  isUndeclared : Bool
  categoryMap : List (String × List (String × Nat))
deriving DecidableEq

/-- The mutable process-wide state touched by the registry code:
`Namespace.__Registry` (URI to instance), the allocator for object
identities, and the class counter `Namespace.__absentNamespaceID`. -/
structure RegState where
  registry : List (String × NS)
  nextId : Nat
  absentCounter : Nat
deriving DecidableEq

/-- Lookup in an association list (Python `dict.get`). -/
def assocLookup {κ α : Type} [DecidableEq κ] (l : List (κ × α)) (k : κ) :
    Option α :=
  match l with
  | [] => none
  | (k2, v) :: rest => if k2 = k then some v else assocLookup rest k

/-- Update-or-append in an association list (Python `dict.__setitem__`):
an existing binding for the key is replaced in place, otherwise the new
binding is appended (Python dicts preserve insertion order). -/
def assocInsert {κ α : Type} [DecidableEq κ] (l : List (κ × α)) (k : κ)
    (v : α) : List (κ × α) :=
  match l with
  | [] => [(k, v)]
  | (k2, v2) :: rest =>
      if k2 = k then (k2, v) :: rest else (k2, v2) :: assocInsert rest k v

/-- Removal from an association list (Python `dict.pop(k, None)`). -/
def assocErase {κ α : Type} [DecidableEq κ] (l : List (κ × α)) (k : κ) :
    List (κ × α) :=
  match l with
  | [] => []
  | (k2, v2) :: rest =>
      if k2 = k then rest else (k2, v2) :: assocErase rest k

/-- A freshly allocated `Namespace` instance right after
`object.__new__` plus the one `__init__` step done in `__new__`
(`instance.__uri = uri; instance._reset()`): all other attributes hold
their class-level defaults and `_reset` leaves the category map empty. -/
def blankNS (i : Nat) (uri : Option String) : NS :=
  { id := i, uri := uri, absentId := 0, boundPfx := none,
    schemaLocation := none, description := none, modulePath := none,
    isBuiltin := false, isUndeclared := false, categoryMap := [] }

/-- `Namespace.__new__`: if the URI is registered return the registered
instance; otherwise allocate a fresh instance (reset state), registering
it unless the URI is `None` (absent namespaces never enter the registry). -/
def namespaceNew (st : RegState) (uri : Option String) : RegState × NS :=
  match uri with
  | none =>
      ({ st with nextId := st.nextId + 1 }, blankNS st.nextId none)
  | some u =>
      match assocLookup st.registry u with
      | some ns => (st, ns)
      | none =>
          let ns := blankNS st.nextId (some u)
          ({ st with registry := assocInsert st.registry u ns,
                     nextId := st.nextId + 1 }, ns)

/-- The attribute assignments and `_reset` performed by
`Namespace.__init__` on the instance returned by `__new__` (the
non-error path; `validateSchema` on the builtin XMLSchema-instance
namespace touches only that builtin's private flags and is not part of
any claim).  Re-running `__init__` on an existing instance resets its
category map but never changes its identity or URI. -/
def initFields (ns : NS) (schemaLocation description : Option String)
    (isBuiltin isUndeclared : Bool) (boundPfx : Option String) : NS :=
  { ns with boundPfx := boundPfx, schemaLocation := schemaLocation,
            description := description, isBuiltin := isBuiltin,
            isUndeclared := isUndeclared, categoryMap := [] }

/-- A constructor call `Namespace(u, ...)` on a non-`None` URI, in the
non-error path (either `is_builtin_namespace` holds or no bound prefix is
supplied, so the `LogicError` branch of `__init__` is not taken):
`__new__` followed by `__init__`, whose mutation of the (registered)
instance is reflected into its registry slot. -/
def namespaceCtorFull (st : RegState) (u : String)
    (schemaLocation description : Option String)
    (isBuiltin isUndeclared : Bool) (boundPfx : Option String) :
    RegState × NS :=
  let p := namespaceNew st (some u)
  let ns1 := initFields p.2 schemaLocation description isBuiltin
               isUndeclared boundPfx
  ({ p.1 with registry := assocInsert p.1.registry u ns1 }, ns1)

/-- The constructor call `Namespace(u)` with default keyword arguments. -/
def namespaceCtor (st : RegState) (u : String) : RegState × NS :=
  namespaceCtorFull st u none none false false none

/-- `Namespace.CreateAbsentNamespace` (also the module-level
`CreateAbsentNamespace` wrapper): construct `Namespace(None)` and stamp
it with the next value of the class counter `__absentNamespaceID`. -/
def createAbsentNamespace (st : RegState) : RegState × NS :=
  let p := namespaceNew st none
  let ns1 := initFields p.2 none none false false none
  ({ p.1 with absentCounter := p.1.absentCounter + 1 },
   { ns1 with absentId := p.1.absentCounter })

/-- Module-level `NamespaceForURI(uri, create_if_missing)`: `None` URI
raises `pyxb.LogicError`; otherwise look the URI up in the registry and,
when absent and `create_if_missing`, construct a `Namespace` for it. -/
def namespaceForURI (st : RegState) (uri : Option String)
    (createIfMissing : Bool) : RegState × Except String (Option NS) :=
  match uri with
  | none => (st, .error "LogicError: Cannot lookup absent namespaces")
  | some u =>
      match assocLookup st.registry u with
      | some ns => (st, .ok (some ns))
      | none =>
          if createIfMissing then
            let p := namespaceCtor st u
            (p.1, .ok (some p.2))
          else (st, .ok none)

/-- The two ways of obtaining a `Namespace` for a URI that claim C1
compares: a direct construction `Namespace(u)` and a lookup
`NamespaceForURI(u, create_if_missing=True)`. -/
inductive GetOp
  | ctor
  | forURI
deriving DecidableEq

/-- Run one construction-or-lookup operation for a non-`None` URI.  The
`forURI` branch unwraps the result of `namespaceForURI u True`, which is
always `ok (some ns)` (the default branch is unreachable, see
`namespaceForURI_some`). -/
def runGet (st : RegState) (op : GetOp) (u : String) : RegState × NS :=
  match op with
  | .ctor => namespaceCtor st u
  | .forURI =>
      let p := namespaceForURI st (some u) true
      match p.2 with
      | .ok (some ns) => (p.1, ns)
      | _ => (p.1, blankNS 0 none)

/-- `_NamespaceCategory_mixin.addCategoryObject(category, local_name,
named_object)` acting on the category map of one namespace: look the
category up (`categoryMap` raises `KeyError` on an unconfigured
category), then fail with `pyxb.NamespaceUniquenessError` when the local
name is already bound to a different component, otherwise store the
binding and return the stored component. -/
def addCategoryObject (catmap : List (String × List (String × Nat)))
    (category localName : String) (namedObject : Nat) :
    Except String (List (String × List (String × Nat)) × Nat) :=
  match assocLookup catmap category with
  | none => .error "KeyError"
  | some nameMap =>
      match assocLookup nameMap localName with
      | some oldObject =>
          if oldObject ≠ namedObject then
            .error "NamespaceUniquenessError: Name used for multiple values"
          else
            .ok (assocInsert catmap category
                   (assocInsert nameMap localName namedObject), namedObject)
      | none =>
          .ok (assocInsert catmap category
                 (assocInsert nameMap localName namedObject), namedObject)

/-- `_NamespaceCategory_mixin.__checkCategoriesEmpty`: true iff every
configured category map is empty (a `None` category map, modelled by the
empty list, counts as empty). -/
def checkCategoriesEmpty (catmap : List (String × List (String × Nat))) :
    Bool :=
  catmap.all (fun p => p.2.isEmpty)

/-- `_NamespaceCategory_mixin.configureCategories(categories)`: ensure a
(possibly empty) map exists for each given category, leaving existing
maps untouched. -/
def configureCategories (catmap : List (String × List (String × Nat)))
    (categories : List String) : List (String × List (String × Nat)) :=
  match categories with
  | [] => catmap
  | c :: rest =>
      let catmap2 :=
        match assocLookup catmap c with
        | some _ => catmap
        | none => catmap ++ [(c, [])]
      configureCategories catmap2 rest

/-- Python `dict.update`: every binding of the second map is written into
the first, overwriting bindings with the same key. -/
def dictUpdate (old new : List (String × Nat)) : List (String × Nat) :=
  match new with
  | [] => old
  | (k, v) :: rest => dictUpdate (assocInsert old k v) rest

/-- `_NamespaceCategory_mixin._LoadFromFile` (lines 170-189), the part
that merges the unpickled category map into the instance's maps.  The
source guards this with `assert instance.__checkCategoriesEmpty` -- note
the missing call parentheses: the assert tests the bound-method object,
which is always truthy, so no emptiness check is actually performed and
the merge proceeds unconditionally; the embedding therefore has no
failure path. -/
def categoriesLoadFromFile (catmap : List (String × List (String × Nat)))
    (newCategoryMap : List (String × List (String × Nat))) :
    List (String × List (String × Nat)) :=
  let catmap1 := configureCategories catmap (newCategoryMap.map Prod.fst)
  newCategoryMap.foldl
    (fun m p =>
      assocInsert m p.1 (dictUpdate ((assocLookup m p.1).getD []) p.2)) catmap1

/-- `Namespace.__PICKLE_FORMAT`, the cache format-version tag. -/
def PICKLE_FORMAT : String := "200905041925"

/-- The content of one saved namespace file, as written by `saveToFile`:
the URI dumped first by `Namespace._saveToFile`, then the pickled
namespace instance (whose state, per `__getstate__`, is the format tag
plus the non-bound metadata), then the category map dumped by
`_NamespaceCategory_mixin._saveToFile`. -/
structure CacheFile where
  uri : String
  format : String
  schemaLocation : Option String
  description : Option String
  modulePath : Option String
  categoryData : List (String × List (String × Nat))
deriving DecidableEq

/-- `Namespace.__setstate__`: raise an unpickling error when the stored
format tag differs from `__PICKLE_FORMAT`, otherwise update the
instance's metadata attributes from the saved keyword map.  The raise
happens before any attribute of the instance is touched. -/
def namespaceSetstate (ns : NS) (f : CacheFile) : Except String NS :=
  if PICKLE_FORMAT ≠ f.format then
    .error "UnpicklingError: Namespace pickle format mismatch"
  else
    .ok { ns with schemaLocation := f.schemaLocation,
                  description := f.description,
                  modulePath := f.modulePath }

/-- `Namespace.LoadFromFile` / the `_LoadFromFile` chain: unpickle the
URI, then unpickle the instance -- which runs `Namespace.__new__` (via
`__getnewargs__`, registering a fresh reset instance when the URI is not
yet registered) and then `__setstate__` (where a format mismatch raises,
after the registration has already happened) -- and finally let the
category mix-in merge the saved category map.  An exception leaves the
registry in whatever state it had reached. -/
def loadFromFile (st : RegState) (f : CacheFile) :
    RegState × Except String NS :=
  let p := namespaceNew st (some f.uri)
  match namespaceSetstate p.2 f with
  | .error e => (p.1, .error e)
  | .ok ns1 =>
      let st2 := { p.1 with registry := assocInsert p.1.registry f.uri ns1 }
      let ns2 := { ns1 with
                   categoryMap := categoriesLoadFromFile ns1.categoryMap
                                    f.categoryData }
      ({ st2 with registry := assocInsert st2.registry f.uri ns2 }, .ok ns2)

/-- A resolvable component as seen by `Namespace.resolveDefinitions`.
`id` is the component's identity, `deps` the identities of the
components its resolution waits for.  `isNamed` models membership in
`_NamedComponent_mixin` and `name` the rendering of `name()`; the
concrete component classes live in the grammar layer outside `src/`, so
this capability record is modelled from the spec ("enumerating the stuck
components by kind and name, or anonymous kind if unnamed"). -/
structure Comp where
  id : Nat
  kind : String
  isNamed : Bool
  name : String
  deps : List Nat
deriving DecidableEq

/-- One line of the `Infinite loop in resolution` diagnostic built at
lines 460-467: `kind named name` for named components, `Anonymous kind`
otherwise. -/
def componentDiagnostic (c : Comp) : String :=
  if c.isNamed then c.kind ++ " named " ++ c.name
  else "Anonymous " ++ c.kind

/-- Modelled from the spec: the `_Resolvable_mixin._resolve` contract for
one component (the concrete implementations live in the grammar layer,
outside `src/`).  A component whose dependencies are all resolved
resolves; otherwise it re-queues itself via `_queueForResolution`. -/
def depsResolved (resolved : List Nat) (c : Comp) : Bool :=
  c.deps.all (fun d => decide (d ∈ resolved))

/-- One pass of the `resolveDefinitions` loop body over the snapshot of
the work list: each snapshotted component is given its resolution step in
order (the resolved set grows as the pass proceeds, exactly as the live
`self.__unresolvedComponents` and the components' resolved states do);
the pass returns the grown resolved set and the newly populated work
list. -/
def resolvePass (resolved : List Nat) (work : List Comp) :
    List Nat × List Comp :=
  match work with
  | [] => (resolved, [])
  | c :: rest =>
      if depsResolved resolved c then
        resolvePass (c.id :: resolved) rest
      else
        let p := resolvePass resolved rest
        (p.1, c :: p.2)

/-- The `while` loop of `Namespace.resolveDefinitions`, with an explicit
fuel counter standing in for the loop (`none` = fuel exhausted; see
`resolveDefinitionsAux_isSome`: `work.length + 1` units always suffice,
matching the source's termination by lack-of-progress detection).  When a
full pass leaves the work list identical to the snapshot just processed,
the engine raises `pyxb.LogicError` listing every stuck component. -/
def resolveDefinitionsAux (fuel : Nat) (resolved : List Nat)
    (work : List Comp) : Option (Except (List String) (List Nat)) :=
  match fuel with
  | 0 => none
  | fuel2 + 1 =>
      match work with
      | [] => some (.ok resolved)
      | _ :: _ =>
          let p := resolvePass resolved work
          if p.2 = work then
            some (.error (work.map componentDiagnostic))
          else
            resolveDefinitionsAux fuel2 p.1 p.2

/-- `Namespace.resolveDefinitions`, run on a resolved set and a pending
work list: the fuel `work.length + 1` is provably sufficient, so the
default value of `getD` is never used. -/
def resolveDefinitions (resolved : List Nat) (work : List Comp) :
    Except (List String) (List Nat) :=
  (resolveDefinitionsAux (work.length + 1) resolved work).getD (.ok resolved)

/-- A component as seen by `Namespace.SortByDependency`.  `tnsAttr`
models the `targetNamespace()` accessor: `none` means the accessor is
missing (the `AttributeError` branches), `some t` its return value, a
namespace identity or Python `None`.  `scopeNone` likewise models the
`scope()` accessor (`some true` = accessor present and scope is `None`).
`kind` is the component's class (for the `isinstance` filter), `deps`
the identities returned by `dependentComponents()`, and `bestNCName` and
`name` the strings used for sorting and diagnostics.  The concrete
component classes live outside `src/`; this capability record is
modelled from the spec's component contract. -/
structure OComp where
  id : Nat
  kind : String
  tnsAttr : Option (Option Nat)
  scopeNone : Option Bool
  isUrType : Bool
  deps : List Nat
  bestNCName : String
  name : String
deriving DecidableEq

/-- The first discard of the `SortByDependency` scan (lines 612-619): a
candidate whose `targetNamespace()` exists, differs from the home
namespace and is not `None` is thrown away; a missing accessor
(`AttributeError`) keeps the candidate. -/
def discardForeign (td : OComp) (tns : Nat) : Bool :=
  match td.tnsAttr with
  | none => false
  | some t => decide (t ≠ some tns) && t.isSome

/-- The second discard (lines 620-626): a candidate whose `scope()`
accessor exists and returns `None` is thrown away. -/
def discardUnscoped (td : OComp) : Bool :=
  td.scopeNone = some true

/-- A candidate that survives both discards ("belongs to the home
namespace and has a scope"). -/
def keptCandidate (tns : Nat) (td : OComp) : Bool :=
  !discardForeign td tns && !discardUnscoped td

/-- Whether a dependency `d` of candidate `td` counts toward the
ordering (the dependency loop, lines 631-651): it is skipped when it
fails the `dependent_class_filter` `isinstance` test, when its
`targetNamespace()` is missing or differs from the home namespace, when
it is an ur-type, or when it is the candidate itself. -/
def depQualifies (tbl : Nat → OComp) (filt : Option String) (tns : Nat)
    (td : OComp) (d : Nat) : Bool :=
  let dtd := tbl d
  (match filt with
   | some f => decide (dtd.kind = f)
   | none => true)
  && decide (dtd.tnsAttr = some (some tns))
  && !dtd.isUrType
  && decide (dtd ≠ td)

/-- The readiness test of one candidate (lines 630-660): every
qualifying dependency must already be a member of the emission order
built in prior passes. -/
def isReady (tbl : Nat → OComp) (filt : Option String) (tns : Nat)
    (emit : List OComp) (td : OComp) : Bool :=
  td.deps.all (fun d => !depQualifies tbl filt tns td d
                        || decide (tbl d ∈ emit))

/-- One scan of the remaining candidates (the `for td in components`
body): discarded candidates vanish, ready candidates are collected in
scan order, the rest become the new candidate list in scan order. -/
def sortPass (tbl : Nat → OComp) (filt : Option String) (tns : Nat)
    (emit : List OComp) (cands : List OComp) :
    List OComp × List OComp :=
  match cands with
  | [] => ([], [])
  | td :: rest =>
      let p := sortPass tbl filt tns emit rest
      if discardForeign td tns then p
      else if discardUnscoped td then p
      else if isReady tbl filt tns emit td then (td :: p.1, p.2)
      else (p.1, td :: p.2)

/-- Stable insertion of one element into a sorted list: `a` goes after
every element `b` with `le b a`, so equal keys keep their original
relative order. -/
def stableInsert {α : Type} (le : α → α → Bool) (a : α) :
    List α → List α
  | [] => [a]
  | b :: rest =>
      if le b a then b :: stableInsert le a rest else a :: b :: rest

/-- Stable sort by a boolean comparator.  For a total transitive
comparator a stable sort's output is uniquely determined, so this models
Python's (stable) `list.sort(cmp)` exactly. -/
def stableSortBy {α : Type} (le : α → α → Bool) (l : List α) : List α :=
  l.foldl (fun acc x => stableInsert le x acc) []

/-- The comparator of line 665: `cmp(_x.bestNCName(), _y.bestNCName())`. -/
def byBestNCName (a b : OComp) : Bool :=
  decide (a.bestNCName ≤ b.bestNCName)

/-- One line of the `Infinite loop in order calculation` diagnostic of
line 669: the candidate's name, a colon, and the names of all its
dependent components. -/
def stuckDiagnostic (tbl : Nat → OComp) (c : OComp) : String :=
  c.name ++ ": " ++ String.intercalate " " (c.deps.map (fun d => (tbl d).name))

/-- The `while` loop of `Namespace.SortByDependency`, fuel-indexed
(`cands.length + 1` provably suffices): scan the candidates, sort the
ready cohort by best name, append it to the emission order, raise
`pyxb.LogicError` when the new candidate list is identical to the one
just scanned, else repeat. -/
def sortByDependencyAux (tbl : Nat → OComp) (filt : Option String)
    (tns : Nat) (fuel : Nat) (emit cands : List OComp) :
    Option (Except (List String) (List OComp)) :=
  match fuel with
  | 0 => none
  | fuel2 + 1 =>
      match cands with
      | [] => some (.ok emit)
      | _ :: _ =>
          let p := sortPass tbl filt tns emit cands
          let emit2 := emit ++ stableSortBy byBestNCName p.1
          if p.2 = cands then
            some (.error (cands.map (stuckDiagnostic tbl)))
          else
            sortByDependencyAux tbl filt tns fuel2 emit2 p.2

/-- `Namespace.SortByDependency(components, dependent_class_filter,
target_namespace)`: the emission order starts empty, and the fuel
`components.length + 1` is provably sufficient, so the default of
`getD` is never used. -/
def sortByDependency (tbl : Nat → OComp) (filt : Option String)
    (tns : Nat) (components : List OComp) :
    Except (List String) (List OComp) :=
  (sortByDependencyAux tbl filt tns (components.length + 1) [] components).getD
    (.ok [])

/-- The URI of the builtin `XMLNamespaces` namespace, used at line 1134
to recognize namespace-declaring attributes. -/
def xmlnsURI : String := "http://www.w3.org/2000/xmlns/"

/-- One DOM attribute as `NamespaceContext.__init__` reads it. -/
structure Attr where
  namespaceURI : Option String
  localName : String
  value : String
deriving DecidableEq

/-- A DOM element node, reduced to what `NamespaceContext.__init__` uses
for a single node (children only trigger the same construction
recursively). -/
structure DomNode where
  attributes : List Attr
deriving DecidableEq

/-- The state shared by all `NamespaceContext` objects: the namespace
registry, plus a store of in-scope prefix maps.  A prefix map is a
Python dict object; contexts hold a reference to one (`inScopeMapId`),
so sharing a map id models Python reference sharing and copy-on-write
allocates a fresh id.  Map id `0` is the module-level
`_UndeclaredNamespaceMap`. -/
structure CtxState where
  reg : RegState
  maps : List (Nat × List (Option String × Nat))
  nextMapId : Nat
deriving DecidableEq

/-- Dereference a prefix-map id in the store. -/
def mapsGet (st : CtxState) (i : Nat) : List (Option String × Nat) :=
  (assocLookup st.maps i).getD []

/-- Overwrite the prefix map stored under an id. -/
def mapsSet (st : CtxState) (i : Nat) (m : List (Option String × Nat)) :
    CtxState :=
  { st with maps := assocInsert st.maps i m }

/-- One `NamespaceContext` object.  Namespaces are referred to by their
identity; the `None` dict key used for the default-namespace binding at
line 1141 becomes the `none` key of the prefix map. -/
structure NamespaceContextL where
  defaultNamespace : Option Nat
  targetNamespace : Option Nat
  inScopeMapId : Nat
  mutableInScope : Bool
  attributeMap : List ((Option String × String) × String)
deriving DecidableEq

/-- `NamespaceForURI(value, create_if_missing=True)` as used inside
`NamespaceContext.__init__`: always yields a namespace (the registered
one, or a newly constructed one). -/
def contextNamespaceForURI (st : CtxState) (u : String) : CtxState × Nat :=
  match assocLookup st.reg.registry u with
  | some ns => (st, ns.id)
  | none =>
      let p := namespaceCtor st.reg u
      ({ st with reg := p.1 }, p.2.id)

/-- The copy-on-write step of lines 1135-1137: before the first
namespace-declaring attribute mutates the in-scope map, a private copy
of the (shared) map is made and the context switches to it. -/
def ensureMutable (st : CtxState) (ctx : NamespaceContextL) :
    CtxState × NamespaceContextL :=
  if ctx.mutableInScope then (st, ctx)
  else
    let newId := st.nextMapId
    let st2 := { st with
                 maps := assocInsert st.maps newId (mapsGet st ctx.inScopeMapId),
                 nextMapId := newId + 1 }
    (st2, { ctx with inScopeMapId := newId, mutableInScope := true })

/-- The body of the attribute loop of `NamespaceContext.__init__` (lines
1131-1162) for one attribute: namespace-declaring attributes (those in
the `XMLNamespaces` namespace) mutate the private copy of the in-scope
map -- `xmlns="u"` sets the default namespace and the `None` binding,
`xmlns:p="u"` binds prefix `p`, and an empty value clears the respective
binding -- while all other attributes land in the attribute map. -/
def processAttr (acc : CtxState × NamespaceContextL) (attr : Attr) :
    CtxState × NamespaceContextL :=
  let st := acc.1
  let ctx := acc.2
  if attr.namespaceURI = some xmlnsURI then
    let q := ensureMutable st ctx
    let st2 := q.1
    let ctx2 := q.2
    if attr.value ≠ "" then
      if attr.localName = "xmlns" then
        let r := contextNamespaceForURI st2 attr.value
        (mapsSet r.1 ctx2.inScopeMapId
           (assocInsert (mapsGet r.1 ctx2.inScopeMapId) none r.2),
         { ctx2 with defaultNamespace := some r.2 })
      else
        let r := contextNamespaceForURI st2 attr.value
        (mapsSet r.1 ctx2.inScopeMapId
           (assocInsert (mapsGet r.1 ctx2.inScopeMapId)
              (some attr.localName) r.2),
         ctx2)
    else
      if attr.localName = "xmlns" then
        (mapsSet st2 ctx2.inScopeMapId
           (assocErase (mapsGet st2 ctx2.inScopeMapId) none),
         { ctx2 with defaultNamespace := none })
      else
        (mapsSet st2 ctx2.inScopeMapId
           (assocErase (mapsGet st2 ctx2.inScopeMapId)
              (some attr.localName)),
         ctx2)
  else
    (st, { ctx with
           attributeMap := assocInsert ctx.attributeMap
             (attr.namespaceURI, attr.localName) attr.value })

/-- `NamespaceContext.__init__(dom_node, parent_context, ...)` for one
node (the `in_scope_namespaces` keyword path, which no claim exercises
and which in the source sets the map to the result of `dict.update`, is
not modelled; recursion over children just repeats this construction):
start from the undeclared-namespace map, inherit the parent's default
and target namespaces and its in-scope map by reference, process the
node's attributes, then fix the target namespace from a
`targetNamespace` attribute or fall back to a fresh absent namespace
(which also becomes the default when none was established). -/
def ctxInit (st : CtxState) (node : Option DomNode)
    (parentContext : Option NamespaceContextL)
    (defaultNamespace targetNamespace : Option Nat) :
    CtxState × NamespaceContextL :=
  let ctx0 : NamespaceContextL :=
    { defaultNamespace := defaultNamespace,
      targetNamespace := targetNamespace,
      inScopeMapId := 0, mutableInScope := false, attributeMap := [] }
  let ctx1 :=
    match parentContext with
    | some p => { ctx0 with inScopeMapId := p.inScopeMapId,
                            mutableInScope := false,
                            defaultNamespace := p.defaultNamespace,
                            targetNamespace := p.targetNamespace }
    | none => ctx0
  let acc :=
    match node with
    | some n => n.attributes.foldl processAttr (st, ctx1)
    | none => (st, ctx1)
  let st2 := acc.1
  let ctx2 := acc.2
  match assocLookup ctx2.attributeMap (none, "targetNamespace") with
  | some v =>
      let r := contextNamespaceForURI st2 v
      (r.1, { ctx2 with targetNamespace := some r.2 })
  | none =>
      if ctx2.targetNamespace = none then
        let r := createAbsentNamespace st2.reg
        let ctx3 := { ctx2 with targetNamespace := some r.2.id }
        let ctx4 :=
          if ctx3.defaultNamespace = none then
            { ctx3 with defaultNamespace := ctx3.targetNamespace }
          else ctx3
        ({ st2 with reg := r.1 }, ctx4)
      else (st2, ctx2)

/-- Split a character list at its first colon, the combination of
`name.find(p)` and `name.split(p, 1)` used by `interpretQName`. -/
def splitAtColon : List Char → Option (List Char × List Char)
  | [] => none
  | c :: rest =>
      if c = ':' then some ([], rest)
      else
        match splitAtColon rest with
        | none => none
        | some (p, l) => some (c :: p, l)

/-- `NamespaceContext.interpretQName(name, is_definition)`: a prefixed
name (which asserts `not is_definition`) resolves its prefix through the
in-scope map, an unbound prefix raising `pyxb.SchemaValidationError`; an
unprefixed name resolves against the target namespace when it is being
defined and against the default namespace otherwise.  The result is the
(namespace, local name) pair. -/
def interpretQName (st : CtxState) (ctx : NamespaceContextL)
    (name : String) (isDefinition : Bool) :
    Except String (Option Nat × String) :=
  match splitAtColon name.toList with
  | some q =>
      if isDefinition then .error "AssertionError"
      else
        match assocLookup (mapsGet st ctx.inScopeMapId)
                (some (String.mk q.1)) with
        | none => .error "SchemaValidationError: QName prefix is not declared"
        | some nsid => .ok (some nsid, String.mk q.2)
  | none =>
      .ok ((if isDefinition then ctx.targetNamespace
            else ctx.defaultNamespace), name)

/-- The registry as it stands after the module body has created the six
predefined namespaces, in source order (`XMLSchema_instance` first). -/
def initialRegState : RegState :=
  let s0 : RegState := { registry := [], nextId := 0, absentCounter := 0 }
  let p1 := namespaceCtorFull s0 "http://www.w3.org/2001/XMLSchema-instance"
              none (some "XML Schema Instance") true true (some "xsi")
  let p2 := namespaceCtorFull p1.1 "http://www.w3.org/2000/xmlns/"
              none (some "Namespaces in XML") true false (some "xmlns")
  let p3 := namespaceCtorFull p2.1 "http://www.w3.org/XML/1998/namespace"
              (some "http://www.w3.org/2001/xml.xsd") (some "XML namespace")
              true true (some "xml")
  let p4 := namespaceCtorFull p3.1 "http://www.w3.org/2001/XMLSchema"
              (some "http://www.w3.org/2001/XMLSchema.xsd")
              (some "XML Schema") true false none
  let p5 := namespaceCtorFull p4.1 "http://www.w3.org/1999/xhtml"
              (some "http://www.w3.org/1999/xhtml.xsd")
              (some "Family of document types that extend HTML")
              true false none
  let p6 := namespaceCtorFull p5.1
              "http://www.w3.org/2001/XMLSchema-hasFacetAndProperty"
              (some "http://www.w3.org/2001/XMLSchema-hasFacetAndProperty")
              (some "Facets appearing in appinfo section") true false none
  p6.1

/-- `_UndeclaredNamespaceMap`: the bound prefixes of the undeclared
predefined namespaces, mapped to those namespaces (`xsi` was created
first, identity 0; `xml` third, identity 2; see
`initialRegState_undeclared_ids`). -/
def undeclaredNamespaceMap : List (Option String × Nat) :=
  [(some "xsi", 0), (some "xml", 2)]

/-- The context-construction state at the end of the module body: the
predefined registry, and the store holding `_UndeclaredNamespaceMap` as
map 0. -/
def initialCtxState : CtxState :=
  { reg := initialRegState, maps := [(0, undeclaredNamespaceMap)],
    nextMapId := 1 }

/-- A named component `A` depending on `B`, for exercising the
resolution engine on a two-cycle. -/
def compA : Comp :=
  { id := 0, kind := "ComplexTypeDefinition", isNamed := true, name := "A",
    deps := [1] }

/-- A named component `B` depending on `A`. -/
def compB : Comp :=
  { id := 1, kind := "ComplexTypeDefinition", isNamed := true, name := "B",
    deps := [0] }

/-- A dependency-free named component, for the acyclic-resolution
witness. -/
def compD : Comp :=
  { id := 2, kind := "SimpleTypeDefinition", isNamed := true, name := "D",
    deps := [] }

/-- A named component depending on `compD`. -/
def compE : Comp :=
  { id := 3, kind := "SimpleTypeDefinition", isNamed := true, name := "E",
    deps := [2] }

/-- The ordering guarantee of claim C3: wherever the emission order
splits around a component, every qualifying dependency of that component
already occurs in the part before it. -/
def orderSound (tbl : Nat → OComp) (filt : Option String) (tns : Nat)
    (order : List OComp) : Prop :=
  ∀ pre c2 post, order = pre ++ c2 :: post →
    ∀ d ∈ c2.deps, depQualifies tbl filt tns c2 d = true → tbl d ∈ pre

/-- An orderable component depending on `oB`, for the dependency-order
witness. -/
def oA : OComp :=
  { id := 5, kind := "CTD", tnsAttr := some (some 10), scopeNone := none,
    isUrType := false, deps := [1], bestNCName := "A", name := "A" }

/-- A dependency-free orderable component. -/
def oB : OComp :=
  { id := 1, kind := "CTD", tnsAttr := some (some 10), scopeNone := none,
    isUrType := false, deps := [], bestNCName := "B", name := "B" }

/-- The component table for the dependency-order witness. -/
def otbl : Nat → OComp := fun d => if d = 1 then oB else oA

/-- A registry state with nothing registered. -/
def emptyRegState : RegState :=
  { registry := [], nextId := 0, absentCounter := 0 }

/-- A cache file whose format tag differs from `PICKLE_FORMAT`. -/
def badCacheFile : CacheFile :=
  { uri := "urn:x", format := "BAD", schemaLocation := none,
    description := none, modulePath := none, categoryData := [] }

/-- A document node declaring `xmlns="urn:a"`. -/
def parentNode : DomNode :=
  { attributes := [ { namespaceURI := some xmlnsURI, localName := "xmlns",
                      value := "urn:a" } ] }

/-- A document node declaring `xmlns:p="urn:b"`. -/
def childNode : DomNode :=
  { attributes := [ { namespaceURI := some xmlnsURI, localName := "p",
                      value := "urn:b" } ] }

/-- A document node with one ordinary (non-namespace-declaring)
attribute. -/
def plainNode : DomNode :=
  { attributes := [ { namespaceURI := none, localName := "foo",
                      value := "v" } ] }

/-- A sample context for exercising `interpretQName`: the undeclared
prefix map, with distinct default and target namespaces. -/
def sampleCtx : NamespaceContextL :=
  { defaultNamespace := some 7, targetNamespace := some 8,
    inScopeMapId := 0, mutableInScope := false, attributeMap := [] }

/-- The context of the node declaring `xmlns="urn:a"`, built at the
document root. -/
def parentCtx : CtxState × NamespaceContextL :=
  ctxInit initialCtxState (some parentNode) none none none

/-- The context of the child node declaring `xmlns:p="urn:b"`, built
under `parentCtx`. -/
def childCtx : CtxState × NamespaceContextL :=
  ctxInit parentCtx.1 (some childNode) (some parentCtx.2) none none

end PyxbNamespace

namespace PyxbNamespace

/-! Association-list facts used throughout. -/

theorem assocLookup_assocInsert_self {κ α : Type} [DecidableEq κ]
    (l : List (κ × α)) (k : κ) (v : α) :
    assocLookup (assocInsert l k v) k = some v := by
  induction l with
  | nil => simp [assocInsert, assocLookup]
  | cons h t ih =>
      obtain ⟨k2, v2⟩ := h
      by_cases hk : k2 = k
      · simp [assocInsert, hk, assocLookup]
      · simp [assocInsert, hk, assocLookup, ih]

theorem assocInsert_assocInsert {κ α : Type} [DecidableEq κ]
    (l : List (κ × α)) (k : κ) (v w : α) :
    assocInsert (assocInsert l k v) k w = assocInsert l k w := by
  induction l with
  | nil => simp [assocInsert]
  | cons h t ih =>
      obtain ⟨k2, v2⟩ := h
      by_cases hk : k2 = k
      · simp [assocInsert, hk]
      · simp [assocInsert, hk, ih]

/-! Registry lemmas for claim C1. -/

/-- After either construction or create-on-lookup of a URI, the returned
instance is the one recorded in the registry. -/
theorem runGet_registered (st : RegState) (op : GetOp) (u : String) :
    assocLookup (runGet st op u).1.registry u = some (runGet st op u).2 := by
  cases op with
  | ctor =>
      simp only [runGet, namespaceCtor, namespaceCtorFull]
      exact assocLookup_assocInsert_self ..
  | forURI =>
      simp only [runGet, namespaceForURI]
      cases h : assocLookup st.registry u with
      | some ns => simp [h]
      | none =>
          simp only [h, if_true]
          simp only [namespaceCtor, namespaceCtorFull]
          exact assocLookup_assocInsert_self ..

/-- On a state where the URI is already registered, either operation
returns an instance with the registered identity (a re-run of
`__init__` resets fields but never changes identity). -/
theorem runGet_existing (st : RegState) (op : GetOp) (u : String) (ns : NS)
    (h : assocLookup st.registry u = some ns) :
    (runGet st op u).2.id = ns.id := by
  cases op with
  | ctor => simp [runGet, namespaceCtor, namespaceCtorFull, namespaceNew, h,
                  initFields]
  | forURI => simp [runGet, namespaceForURI, h]

/-- C1: for every non-`None` URI `u`, any two constructions or lookups
(`Namespace(u)` or `NamespaceForURI(u, create_if_missing=True)`) return
the identical `Namespace` instance, and that instance is recorded in the
registry; two `CreateAbsentNamespace` creations return distinct
instances and leave the registry untouched. -/
theorem registry_getOrCreate_identity (st : RegState) (u : String)
    (op1 op2 : GetOp) :
    ((runGet (runGet st op1 u).1 op2 u).2.id = (runGet st op1 u).2.id
     ∧ ∃ ns, assocLookup (runGet (runGet st op1 u).1 op2 u).1.registry u
               = some ns
           ∧ ns.id = (runGet st op1 u).2.id)
    ∧ ((createAbsentNamespace st).2.id
         ≠ (createAbsentNamespace (createAbsentNamespace st).1).2.id
       ∧ (createAbsentNamespace (createAbsentNamespace st).1).1.registry
           = st.registry) := by
  refine ⟨⟨?_, (runGet (runGet st op1 u).1 op2 u).2,
           runGet_registered (runGet st op1 u).1 op2 u, ?_⟩, ?_, ?_⟩
  · exact runGet_existing _ op2 u _ (runGet_registered st op1 u)
  · exact runGet_existing _ op2 u _ (runGet_registered st op1 u)
  · simp only [createAbsentNamespace, namespaceNew, initFields, blankNS]
    omega
  · rfl

/-- C4: once a component `A` is registered under `(c, n)`, registering a
different component `B` under `(c, n)` raises
`pyxb.NamespaceUniquenessError`, while registering `A` again succeeds as
a no-op, each successful call returning the stored component. -/
theorem addCategoryObject_collision_and_idempotence
    (catmap : List (String × List (String × Nat))) (c n : String)
    (nm : List (String × Nat)) (A B : Nat)
    (hconf : assocLookup catmap c = some nm)
    (hfresh : assocLookup nm n = none)
    (hAB : A ≠ B) :
    addCategoryObject catmap c n A
      = .ok (assocInsert catmap c (assocInsert nm n A), A)
    ∧ addCategoryObject (assocInsert catmap c (assocInsert nm n A)) c n B
      = .error "NamespaceUniquenessError: Name used for multiple values"
    ∧ addCategoryObject (assocInsert catmap c (assocInsert nm n A)) c n A
      = .ok (assocInsert catmap c (assocInsert nm n A), A) := by
  refine ⟨?_, ?_, ?_⟩
  · simp [addCategoryObject, hconf, hfresh]
  · simp [addCategoryObject, assocLookup_assocInsert_self, hAB]
  · simp [addCategoryObject, assocLookup_assocInsert_self,
          assocInsert_assocInsert]

/-- Witness for C4 at a concrete category map. -/
theorem addCategoryObject_collision_and_idempotence_witness :
    assocLookup [("typeDefinition", ([] : List (String × Nat)))]
        "typeDefinition" = some []
    ∧ (1 : Nat) ≠ 2
    ∧ addCategoryObject [("typeDefinition", [])] "typeDefinition" "x" 1
        = .ok ([("typeDefinition", [("x", 1)])], 1)
    ∧ addCategoryObject [("typeDefinition", [("x", 1)])] "typeDefinition"
        "x" 2
        = .error "NamespaceUniquenessError: Name used for multiple values"
    ∧ addCategoryObject [("typeDefinition", [("x", 1)])] "typeDefinition"
        "x" 1
        = .ok ([("typeDefinition", [("x", 1)])], 1) := by
  have h := addCategoryObject_collision_and_idempotence
    [("typeDefinition", [])] "typeDefinition" "x" [] 1 2
    (by decide) (by decide) (by decide)
  exact ⟨by decide, by decide, h.1, h.2.1, h.2.2⟩

/-- C6: the emptiness guard of `_NamespaceCategory_mixin._LoadFromFile`
asserts the bound-method object `instance.__checkCategoriesEmpty`
instead of calling it, so loading cached category data into a namespace
whose maps are non-empty silently merges instead of failing: here the
intended check (`checkCategoriesEmpty`) reports non-empty, yet the merge
proceeds and combines old and cached entries. -/
theorem categories_load_merges_despite_nonempty :
    checkCategoriesEmpty [("typeDefinition", [("Foo", 1)])] = false
    ∧ categoriesLoadFromFile [("typeDefinition", [("Foo", 1)])]
        [("typeDefinition", [("Bar", 2)])]
      = [("typeDefinition", [("Foo", 1), ("Bar", 2)])] := by
  exact ⟨by decide, by decide⟩

/-- Counterexample to C7 as stated: loading a version-mismatched cache
file for a not-yet-registered URI does raise the format error, but the
registry is not as it was before the load -- instance unpickling runs
`Namespace.__new__`, which registers a fresh namespace before
`__setstate__` gets to check the version tag. -/
theorem loadFromFile_registers_on_format_mismatch :
    (loadFromFile emptyRegState badCacheFile).2
      = .error "UnpicklingError: Namespace pickle format mismatch"
    ∧ assocLookup emptyRegState.registry "urn:x" = none
    ∧ assocLookup (loadFromFile emptyRegState badCacheFile).1.registry
        "urn:x" ≠ none := by
  exact ⟨rfl, by decide, by decide⟩

/-- C7 as amended: a format-tag mismatch makes `LoadFromFile` raise the
unpickling error and merges no cached data; when the URI was already
registered the whole state is untouched, and when it was not, what
remains registered is exactly one freshly reset namespace (whose
category maps are empty) for that URI. -/
theorem loadFromFile_format_mismatch_behavior (st : RegState)
    (f : CacheFile) (h : f.format ≠ PICKLE_FORMAT) :
    (loadFromFile st f).2
      = .error "UnpicklingError: Namespace pickle format mismatch"
    ∧ (∀ ns, assocLookup st.registry f.uri = some ns →
        (loadFromFile st f).1 = st)
    ∧ (assocLookup st.registry f.uri = none →
        (loadFromFile st f).1.registry
          = assocInsert st.registry f.uri (blankNS st.nextId (some f.uri))
        ∧ (blankNS st.nextId (some f.uri)).categoryMap = []) := by
  have hne : PICKLE_FORMAT ≠ f.format := fun e => h e.symm
  refine ⟨?_, ?_, ?_⟩
  · cases hl : assocLookup st.registry f.uri <;>
      simp [loadFromFile, namespaceNew, namespaceSetstate, hl, hne]
  · intro ns hl
    simp [loadFromFile, namespaceNew, namespaceSetstate, hl, hne]
  · intro hl
    refine ⟨?_, rfl⟩
    simp [loadFromFile, namespaceNew, namespaceSetstate, hl, hne]

/-- Witness for C7's amended statement at the concrete mismatching file,
covering both the registered and the unregistered URI case. -/
theorem loadFromFile_format_mismatch_behavior_witness :
    badCacheFile.format ≠ PICKLE_FORMAT
    ∧ (loadFromFile emptyRegState badCacheFile).2
        = .error "UnpicklingError: Namespace pickle format mismatch"
    ∧ (loadFromFile emptyRegState badCacheFile).1.registry
        = assocInsert emptyRegState.registry "urn:x"
            (blankNS 0 (some "urn:x")) := by
  have h := loadFromFile_format_mismatch_behavior emptyRegState badCacheFile
    (by decide)
  exact ⟨by decide, h.1, (h.2.2 (by decide)).1⟩

/-- C2: when a full resolution pass leaves the work list identical to
the snapshot just processed, `resolveDefinitions` raises the
`Infinite loop in resolution` error enumerating every stuck component by
kind and name (or as anonymous); in particular, two mutually dependent
components `A` and `B` terminate with that error naming both. -/
theorem resolution_stagnation_error :
    (∀ (resolved : List Nat) (work : List Comp), work ≠ [] →
       (resolvePass resolved work).2 = work →
       resolveDefinitions resolved work
         = .error (work.map componentDiagnostic))
    ∧ resolveDefinitions [] [compA, compB]
        = .error ["ComplexTypeDefinition named A",
                  "ComplexTypeDefinition named B"] := by
  constructor
  · intro resolved work hne hpass
    obtain ⟨c, rest, rfl⟩ := List.exists_cons_of_ne_nil hne
    simp [resolveDefinitions, resolveDefinitionsAux, hpass]
  · rfl

/-- Witness for C2's general part at the two-cycle work list. -/
theorem resolution_stagnation_error_witness :
    ([compA, compB] ≠ ([] : List Comp)
     ∧ (resolvePass [] [compA, compB]).2 = [compA, compB])
    ∧ resolveDefinitions [] [compA, compB]
        = .error (([compA, compB]).map componentDiagnostic) := by
  exact ⟨⟨by decide, by decide⟩,
         resolution_stagnation_error.1 [] [compA, compB] (by decide)
           (by decide)⟩

/-- C9: a prefixed qualified name resolves its prefix through the
in-scope map (an unbound prefix raising the validation error), and an
unprefixed name resolves against the target namespace when it is being
defined and against the default namespace when used as a reference. -/
theorem interpretQName_resolution (st : CtxState)
    (ctx : NamespaceContextL) (name : String) :
    (∀ pfx loc, splitAtColon name.toList = some (pfx, loc) →
       (assocLookup (mapsGet st ctx.inScopeMapId) (some (String.mk pfx))
          = none →
        interpretQName st ctx name false
          = .error "SchemaValidationError: QName prefix is not declared")
       ∧ (∀ nsid,
            assocLookup (mapsGet st ctx.inScopeMapId) (some (String.mk pfx))
              = some nsid →
            interpretQName st ctx name false
              = .ok (some nsid, String.mk loc)))
    ∧ (splitAtColon name.toList = none →
        interpretQName st ctx name true = .ok (ctx.targetNamespace, name)
        ∧ interpretQName st ctx name false
            = .ok (ctx.defaultNamespace, name)) := by
  constructor
  · intro pfx loc hsplit
    simp only [String.toList] at hsplit
    constructor
    · intro hun
      simp [interpretQName, hsplit, hun]
    · intro nsid hb
      simp [interpretQName, hsplit, hb]
  · intro hnone
    simp only [String.toList] at hnone
    constructor <;> simp [interpretQName, hnone]

/-- Witness for C9: prefix `xsi` is bound in the undeclared map, `zz` is
not, and an unprefixed name follows `is_definition`. -/
theorem interpretQName_resolution_witness :
    interpretQName initialCtxState sampleCtx "xsi:type" false
      = .ok (some 0, "type")
    ∧ interpretQName initialCtxState sampleCtx "zz:t" false
      = .error "SchemaValidationError: QName prefix is not declared"
    ∧ interpretQName initialCtxState sampleCtx "foo" true = .ok (some 8, "foo")
    ∧ interpretQName initialCtxState sampleCtx "foo" false
      = .ok (some 7, "foo") := by
  have h1 := ((interpretQName_resolution initialCtxState sampleCtx
      "xsi:type").1 "xsi".toList "type".toList (by decide)).2 0 (by decide)
  have h2 := ((interpretQName_resolution initialCtxState sampleCtx
      "zz:t").1 "zz".toList "t".toList (by decide)).1 (by decide)
  have h3 := (interpretQName_resolution initialCtxState sampleCtx
      "foo").2 (by decide)
  exact ⟨h1, h2, h3.1, h3.2⟩

/-- Processing a run of attributes none of which is namespace-declaring
only accumulates the ordinary attribute map: the shared state, the
in-scope map reference and the namespace fields are untouched. -/
theorem foldl_processAttr_no_xmlns (st : CtxState) (attrs : List Attr)
    (ctx : NamespaceContextL)
    (h : ∀ a ∈ attrs, a.namespaceURI ≠ some xmlnsURI) :
    ∃ am, attrs.foldl processAttr (st, ctx)
            = (st, { ctx with attributeMap := am }) := by
  induction attrs generalizing ctx with
  | nil => exact ⟨ctx.attributeMap, rfl⟩
  | cons a rest ih =>
      have ha : a.namespaceURI ≠ some xmlnsURI := h a (by simp)
      have hrest : ∀ b ∈ rest, b.namespaceURI ≠ some xmlnsURI :=
        fun b hb => h b (by simp [hb])
      have hstep : processAttr (st, ctx) a
          = (st, { ctx with attributeMap :=
                     (assocInsert ctx.attributeMap
                       (a.namespaceURI, a.localName) a.value) }) := by
        simp [processAttr, ha]
      obtain ⟨am, ham⟩ := ih _ hrest
      exact ⟨am, by simpa [hstep] using ham⟩

/-- C8: a child node with no namespace-declaring attributes shares its
parent's in-scope prefix map by reference (same map object, no map
allocated); and concretely, a child declaring `xmlns:p="urn:b"` under a
parent declaring `xmlns="urn:a"` inherits default namespace `urn:a`,
additionally binds `p` to `urn:b` in a private copy, and leaves the
parent's own map unchanged. -/
theorem namespaceContext_copy_on_write :
    (∀ (st : CtxState) (node : DomNode) (parent : NamespaceContextL),
       (∀ a ∈ node.attributes, a.namespaceURI ≠ some xmlnsURI) →
       (ctxInit st (some node) (some parent) none none).2.inScopeMapId
           = parent.inScopeMapId
       ∧ (ctxInit st (some node) (some parent) none none).1.maps = st.maps)
    ∧ (childCtx.2.defaultNamespace = parentCtx.2.defaultNamespace
       ∧ (assocLookup childCtx.1.reg.registry "urn:a").map NS.id
           = parentCtx.2.defaultNamespace
       ∧ assocLookup (mapsGet childCtx.1 childCtx.2.inScopeMapId) (some "p")
           = (assocLookup childCtx.1.reg.registry "urn:b").map NS.id
       ∧ assocLookup (mapsGet childCtx.1 childCtx.2.inScopeMapId) none
           = parentCtx.2.defaultNamespace
       ∧ childCtx.2.inScopeMapId ≠ parentCtx.2.inScopeMapId
       ∧ mapsGet childCtx.1 parentCtx.2.inScopeMapId
           = mapsGet parentCtx.1 parentCtx.2.inScopeMapId) := by
  constructor
  · intro st node parent h
    obtain ⟨am, ham⟩ := foldl_processAttr_no_xmlns st node.attributes
      { defaultNamespace := parent.defaultNamespace,
        targetNamespace := parent.targetNamespace,
        inScopeMapId := parent.inScopeMapId, mutableInScope := false,
        attributeMap := [] } h
    simp only [ctxInit, ham]
    cases htns : assocLookup am (none, "targetNamespace") with
    | some v =>
        simp only [htns, contextNamespaceForURI]
        cases hr : assocLookup st.reg.registry v <;> simp [hr]
    | none =>
        simp only [htns]
        by_cases htn : parent.targetNamespace = none <;>
          by_cases hd : parent.defaultNamespace = none <;> simp [htn, hd]
  · refine ⟨?_, ?_, ?_, ?_, ?_, ?_⟩ <;> decide

/-- Witness for C8's sharing part: a child with only an ordinary
attribute keeps the parent's map reference and allocates nothing. -/
theorem namespaceContext_copy_on_write_witness :
    (∀ a ∈ plainNode.attributes, a.namespaceURI ≠ some xmlnsURI)
    ∧ (ctxInit parentCtx.1 (some plainNode) (some parentCtx.2) none
         none).2.inScopeMapId = parentCtx.2.inScopeMapId
    ∧ (ctxInit parentCtx.1 (some plainNode) (some parentCtx.2) none
         none).1.maps = parentCtx.1.maps := by
  have h := namespaceContext_copy_on_write.1 parentCtx.1 plainNode
    parentCtx.2 (by decide)
  exact ⟨by decide, h.1, h.2⟩

/-! Lemmas about one resolution pass, for claim C5. -/

/-- A pass only re-queues components taken from the snapshot, in their
original relative order. -/
theorem resolvePass_sublist (resolved : List Nat) (work : List Comp) :
    (resolvePass resolved work).2.Sublist work := by
  induction work generalizing resolved with
  | nil => simp [resolvePass]
  | cons c rest ih =>
      simp only [resolvePass]
      by_cases h : depsResolved resolved c
      · simp only [h, if_true]
        exact (ih (c.id :: resolved)).trans (List.sublist_cons_self c rest)
      · simp only [h, if_false]
        exact (ih resolved).cons₂ c

/-- The resolved set only grows during a pass. -/
theorem resolvePass_mono (resolved : List Nat) (work : List Comp)
    (x : Nat) (hx : x ∈ resolved) : x ∈ (resolvePass resolved work).1 := by
  induction work generalizing resolved with
  | nil => simpa [resolvePass] using hx
  | cons c rest ih =>
      simp only [resolvePass]
      by_cases h : depsResolved resolved c
      · simp only [h, if_true]
        exact ih (c.id :: resolved) (by simp [hx])
      · simp only [h, if_false]
        exact ih resolved hx

/-- Every snapshotted component either ends up resolved or back on the
work list (the engine's own postcondition at line 448). -/
theorem resolvePass_cover (resolved : List Nat) (work : List Comp)
    (c : Comp) (hc : c ∈ work) :
    c.id ∈ (resolvePass resolved work).1 ∨ c ∈ (resolvePass resolved work).2 := by
  induction work generalizing resolved with
  | nil => cases hc
  | cons c2 rest ih =>
      simp only [resolvePass]
      rcases List.mem_cons.1 hc with hq | hq
      · subst hq
        by_cases h : depsResolved resolved c
        · simp only [h, if_true]
          exact .inl (resolvePass_mono _ rest c.id (by simp))
        · simp only [h, if_false]
          exact .inr (by simp)
      · by_cases h : depsResolved resolved c2
        · simp only [h, if_true]
          exact ih _ hq
        · simp only [h, if_false]
          rcases ih resolved hq with hl | hr
          · exact .inl hl
          · exact .inr (by simp [hr])

/-- A pass adds to the resolved set only identities of snapshotted
components. -/
theorem resolvePass_bound (resolved : List Nat) (work : List Comp)
    (x : Nat) (hx : x ∈ (resolvePass resolved work).1) :
    x ∈ resolved ∨ x ∈ work.map Comp.id := by
  induction work generalizing resolved with
  | nil => simp only [resolvePass] at hx; exact .inl hx
  | cons c rest ih =>
      simp only [resolvePass] at hx
      by_cases h : depsResolved resolved c
      · simp only [h, if_true] at hx
        rcases ih (c.id :: resolved) hx with hl | hr
        · rcases List.mem_cons.1 hl with he | he
          · exact .inr (by simp [he])
          · exact .inl he
        · exact .inr (by simp [hr])
      · simp only [h, if_false] at hx
        rcases ih resolved hx with hl | hr
        · exact .inl hl
        · exact .inr (by simp [hr])

/-- A component whose dependencies are all already resolved is never
re-queued by a pass (its resolution step completes whenever it is
reached, since the resolved set only grows). -/
theorem resolvePass_ready_not_requeued (c : Comp) (work : List Comp) :
    ∀ resolved, (∀ d ∈ c.deps, d ∈ resolved) →
    c ∉ (resolvePass resolved work).2 := by
  induction work with
  | nil => intro resolved _; simp [resolvePass]
  | cons c2 rest ih =>
      intro resolved hdeps
      simp only [resolvePass]
      by_cases h : depsResolved resolved c2
      · simp only [h, if_true]
        exact ih (c2.id :: resolved) (fun d hd => by simp [hdeps d hd])
      · simp only [h, if_false]
        intro hmem
        rcases List.mem_cons.1 hmem with he | he
        · subst he
          exact h (by simpa [depsResolved, List.all_eq_true] using hdeps)
        · exact ih resolved hdeps he

/-- A nonempty finite list has an element of minimal measure. -/
theorem list_exists_min_image {α : Type} (f : α → Nat) (l : List α)
    (h : l ≠ []) : ∃ m ∈ l, ∀ b ∈ l, f m ≤ f b := by
  induction l with
  | nil => cases h rfl
  | cons a rest ih =>
      rcases eq_or_ne rest [] with hr | hr
      · exact ⟨a, by simp, by simp [hr]⟩
      · obtain ⟨m, hm, hmin⟩ := ih hr
        by_cases hc : f a ≤ f m
        · refine ⟨a, by simp, ?_⟩
          intro b hb
          rcases List.mem_cons.1 hb with hb | hb
          · subst hb; exact le_rfl
          · exact hc.trans (hmin b hb)
        · refine ⟨m, by simp [hm], ?_⟩
          intro b hb
          rcases List.mem_cons.1 hb with hb | hb
          · subst hb; exact (not_le.1 hc).le
          · exact hmin b hb

/-- The engine never returns within fuel exceeding the work-list length:
each productive pass strictly shrinks the list, so the loop always ends
in success or in the stagnation error. -/
theorem resolveDefinitionsAux_isSome (fuel : Nat) :
    ∀ (resolved : List Nat) (work : List Comp), work.length < fuel →
    (resolveDefinitionsAux fuel resolved work).isSome := by
  induction fuel with
  | zero => intro _ work h; cases h
  | succ f ih =>
      intro resolved work h
      match work with
      | [] => simp [resolveDefinitionsAux]
      | c :: rest =>
          simp only [resolveDefinitionsAux]
          by_cases hp : (resolvePass resolved (c :: rest)).2 = c :: rest
          · simp [hp]
          · simp only [hp, if_false]
            apply ih
            have hsub := resolvePass_sublist resolved (c :: rest)
            have hle := hsub.length_le
            have hlt : (resolvePass resolved (c :: rest)).2.length
                < (c :: rest).length := by
              rcases lt_or_eq_of_le hle with hlt | heq
              · exact hlt
              · exact absurd (hsub.eq_of_length heq) hp
            omega

/-- Along a successful run, the resolved set only grows. -/
theorem resolveDefinitionsAux_mono (fuel : Nat) :
    ∀ (resolved res : List Nat) (work : List Comp),
    resolveDefinitionsAux fuel resolved work = some (.ok res) →
    ∀ x ∈ resolved, x ∈ res := by
  induction fuel with
  | zero => intro _ _ _ h; cases h
  | succ f ih =>
      intro resolved res work h x hx
      match work with
      | [] =>
          simp only [resolveDefinitionsAux, Option.some.injEq] at h
          cases h
          exact hx
      | c :: rest =>
          simp only [resolveDefinitionsAux] at h
          by_cases hp : (resolvePass resolved (c :: rest)).2 = c :: rest
          · simp [hp] at h
          · simp only [hp, if_false] at h
            exact ih _ res _ h x (resolvePass_mono _ _ x hx)

/-- A successful run resolves only input identities (plus what was
already resolved). -/
theorem resolveDefinitionsAux_bound (fuel : Nat) :
    ∀ (resolved res : List Nat) (work : List Comp),
    resolveDefinitionsAux fuel resolved work = some (.ok res) →
    ∀ x ∈ res, x ∈ resolved ∨ x ∈ work.map Comp.id := by
  induction fuel with
  | zero => intro _ _ _ h; cases h
  | succ f ih =>
      intro resolved res work h x hx
      match work with
      | [] =>
          simp only [resolveDefinitionsAux, Option.some.injEq] at h
          cases h
          exact .inl hx
      | c :: rest =>
          simp only [resolveDefinitionsAux] at h
          by_cases hp : (resolvePass resolved (c :: rest)).2 = c :: rest
          · simp [hp] at h
          · simp only [hp, if_false] at h
            rcases ih _ res _ h x hx with hl | hr
            · exact resolvePass_bound _ _ x hl
            · right
              have hsub := (resolvePass_sublist resolved (c :: rest)).map Comp.id
              exact hsub.subset hr

/-- Core of claim C5: with a rank function certifying acyclicity and all
dependencies accounted for, the engine succeeds within the sufficient
fuel and resolves every pending component. -/
theorem resolveDefinitionsAux_acyclic (rank : Nat → Nat) (n : Nat) :
    ∀ (work : List Comp), work.length ≤ n →
    ∀ (fuel : Nat) (resolved : List Nat), work.length < fuel →
    (∀ c ∈ work, ∀ d ∈ c.deps, d ∈ resolved ∨ ∃ c2 ∈ work, c2.id = d) →
    (∀ c ∈ work, ∀ d ∈ c.deps, (∃ c2 ∈ work, c2.id = d) →
       rank d < rank c.id) →
    ∃ res, resolveDefinitionsAux fuel resolved work = some (.ok res)
         ∧ ∀ c ∈ work, c.id ∈ res := by
  induction n with
  | zero =>
      intro work hn fuel resolved hfuel _ _
      have hw : work = [] := List.length_eq_zero.1 (Nat.le_zero.1 hn)
      subst hw
      match fuel, hfuel with
      | f + 1, _ => exact ⟨resolved, by simp [resolveDefinitionsAux], by simp⟩
  | succ n ih =>
      intro work hn fuel resolved hfuel hclosed hrank
      match work with
      | [] =>
          match fuel, hfuel with
          | f + 1, _ =>
              exact ⟨resolved, by simp [resolveDefinitionsAux], by simp⟩
      | c :: rest =>
          match fuel, hfuel with
          | f + 1, hfuel =>
          obtain ⟨m, hm, hmin⟩ := list_exists_min_image
            (fun c2 => rank c2.id) (c :: rest) (by simp)
          have hmdeps : ∀ d ∈ m.deps, d ∈ resolved := by
            intro d hd
            rcases hclosed m hm d hd with hl | ⟨c2, hc2, he⟩
            · exact hl
            · exfalso
              have h1 := hrank m hm d hd ⟨c2, hc2, he⟩
              have h2 := hmin c2 hc2
              rw [he] at h2
              omega
          have hnot := resolvePass_ready_not_requeued m (c :: rest)
            resolved hmdeps
          have hprog : (resolvePass resolved (c :: rest)).2 ≠ c :: rest := by
            intro he
            exact hnot (by rw [he]; exact hm)
          have hsub := resolvePass_sublist resolved (c :: rest)
          have hlen : (resolvePass resolved (c :: rest)).2.length
              < (c :: rest).length := by
            rcases lt_or_eq_of_le hsub.length_le with hlt | heq
            · exact hlt
            · exact absurd (hsub.eq_of_length heq) hprog
          have hclosed2 : ∀ c2 ∈ (resolvePass resolved (c :: rest)).2,
              ∀ d ∈ c2.deps, d ∈ (resolvePass resolved (c :: rest)).1
                ∨ ∃ c3 ∈ (resolvePass resolved (c :: rest)).2, c3.id = d := by
            intro c2 hc2 d hd
            rcases hclosed c2 (hsub.subset hc2) d hd with hl | ⟨c3, hc3, he⟩
            · exact .inl (resolvePass_mono _ _ d hl)
            · rcases resolvePass_cover resolved (c :: rest) c3 hc3 with h1 | h1
              · exact .inl (he ▸ h1)
              · exact .inr ⟨c3, h1, he⟩
          have hrank2 : ∀ c2 ∈ (resolvePass resolved (c :: rest)).2,
              ∀ d ∈ c2.deps,
              (∃ c3 ∈ (resolvePass resolved (c :: rest)).2, c3.id = d) →
              rank d < rank c2.id := by
            intro c2 hc2 d hd hex
            obtain ⟨c3, hc3, he⟩ := hex
            exact hrank c2 (hsub.subset hc2) d hd ⟨c3, hsub.subset hc3, he⟩
          have hnb : (resolvePass resolved (c :: rest)).2.length ≤ n := by
            have h1 := hlen
            have h2 := hn
            simp only [List.length_cons] at h1 h2
            omega
          have hfb : (resolvePass resolved (c :: rest)).2.length < f := by
            have h1 := hlen
            have h2 := hfuel
            simp only [List.length_cons] at h1 h2
            omega
          obtain ⟨res, hres, hcov⟩ := ih (resolvePass resolved (c :: rest)).2
            hnb f (resolvePass resolved (c :: rest)).1 hfb
            hclosed2 hrank2
          refine ⟨res, ?_, ?_⟩
          · simp only [resolveDefinitionsAux, hprog, if_false]
            exact hres
          · intro c2 hc2
            rcases resolvePass_cover resolved (c :: rest) c2 hc2 with h1 | h1
            · exact resolveDefinitionsAux_mono f _ res _ hres c2.id h1
            · exact hcov c2 h1

/-- C5: on a work list whose dependencies are accounted for (each
dependency already resolved or itself pending) and acyclic (certified by
a rank function decreasing along dependency edges), `resolveDefinitions`
terminates successfully -- whatever the initial ordering, since the
hypotheses are order-independent -- with every pending component
resolved, and the resulting resolved set is exactly the input resolved
set plus the pending identities (so the outcome does not depend on the
work-list order). -/
theorem resolveDefinitions_acyclic_terminates (rank : Nat → Nat)
    (resolved : List Nat) (work : List Comp)
    (hclosed : ∀ c ∈ work, ∀ d ∈ c.deps,
       d ∈ resolved ∨ ∃ c2 ∈ work, c2.id = d)
    (hrank : ∀ c ∈ work, ∀ d ∈ c.deps, (∃ c2 ∈ work, c2.id = d) →
       rank d < rank c.id) :
    ∃ res, resolveDefinitions resolved work = .ok res
         ∧ (∀ c ∈ work, c.id ∈ res)
         ∧ (∀ x, x ∈ res ↔ (x ∈ resolved ∨ x ∈ work.map Comp.id)) := by
  obtain ⟨res, hres, hcov⟩ := resolveDefinitionsAux_acyclic rank work.length
    work le_rfl (work.length + 1) resolved (by omega) hclosed hrank
  refine ⟨res, ?_, hcov, ?_⟩
  · simp [resolveDefinitions, hres]
  · intro x
    constructor
    · exact resolveDefinitionsAux_bound _ _ _ _ hres x
    · intro hx
      rcases hx with hl | hr
      · exact resolveDefinitionsAux_mono _ _ _ _ hres x hl
      · obtain ⟨c, hc, he⟩ := List.mem_map.1 hr
        exact he ▸ hcov c hc

/-- Witness for C5 on a two-element acyclic work list presented in
anti-dependency order. -/
theorem resolveDefinitions_acyclic_terminates_witness :
    (∀ c ∈ [compE, compD], ∀ d ∈ c.deps,
       d ∈ ([] : List Nat) ∨ ∃ c2 ∈ [compE, compD], c2.id = d)
    ∧ ∃ res, resolveDefinitions [] [compE, compD] = .ok res
         ∧ (∀ c ∈ [compE, compD], c.id ∈ res)
         ∧ (∀ x, x ∈ res ↔ (x ∈ ([] : List Nat)
              ∨ x ∈ ([compE, compD]).map Comp.id)) := by
  exact ⟨by decide,
         resolveDefinitions_acyclic_terminates id [] [compE, compD]
           (by decide) (by decide)⟩

/-! Lemmas about one candidate scan of `SortByDependency`, for claim C3. -/

/-- Readiness unfolded: every qualifying dependency is already emitted. -/
theorem isReady_iff (tbl : Nat → OComp) (filt : Option String) (tns : Nat)
    (emit : List OComp) (td : OComp) :
    isReady tbl filt tns emit td = true
      ↔ ∀ d ∈ td.deps, depQualifies tbl filt tns td d = true →
          tbl d ∈ emit := by
  simp only [isReady, List.all_eq_true, Bool.or_eq_true, Bool.not_eq_true',
             decide_eq_true_eq]
  constructor
  · intro h d hd hq
    rcases h d hd with h1 | h1
    · rw [hq] at h1; cases h1
    · exact h1
  · intro h d hd
    by_cases hq : depQualifies tbl filt tns td d = true
    · exact .inr (h d hd hq)
    · exact .inl (by simpa using hq)

/-- Every candidate the scan re-queues was a kept, not-ready member of
the scanned list. -/
theorem sortPass_new_spec (tbl : Nat → OComp) (filt : Option String)
    (tns : Nat) (emit cands : List OComp) :
    ∀ td ∈ (sortPass tbl filt tns emit cands).2,
      td ∈ cands ∧ keptCandidate tns td = true
      ∧ isReady tbl filt tns emit td = false := by
  induction cands with
  | nil => simp [sortPass]
  | cons c2 rest ih =>
      intro td htd
      simp only [sortPass] at htd
      by_cases hf : discardForeign c2 tns
      · simp only [hf, if_true] at htd
        obtain ⟨h1, h2, h3⟩ := ih td htd
        exact ⟨by simp [h1], h2, h3⟩
      · simp only [hf, if_false] at htd
        by_cases hu : discardUnscoped c2
        · simp only [hu, if_true] at htd
          obtain ⟨h1, h2, h3⟩ := ih td htd
          exact ⟨by simp [h1], h2, h3⟩
        · simp only [hu, if_false] at htd
          by_cases hr : isReady tbl filt tns emit c2
          · simp only [hr, if_true] at htd
            obtain ⟨h1, h2, h3⟩ := ih td htd
            exact ⟨by simp [h1], h2, h3⟩
          · simp only [hr, if_false] at htd
            rcases List.mem_cons.1 htd with he | he
            · subst he
              exact ⟨by simp, by simp [keptCandidate, hf, hu],
                     by simpa using hr⟩
            · obtain ⟨h1, h2, h3⟩ := ih td he
              exact ⟨by simp [h1], h2, h3⟩

/-- Every candidate the scan marks ready was a kept, ready member of the
scanned list. -/
theorem sortPass_ready_spec (tbl : Nat → OComp) (filt : Option String)
    (tns : Nat) (emit cands : List OComp) :
    ∀ td ∈ (sortPass tbl filt tns emit cands).1,
      td ∈ cands ∧ keptCandidate tns td = true
      ∧ isReady tbl filt tns emit td = true := by
  induction cands with
  | nil => simp [sortPass]
  | cons c2 rest ih =>
      intro td htd
      simp only [sortPass] at htd
      by_cases hf : discardForeign c2 tns
      · simp only [hf, if_true] at htd
        obtain ⟨h1, h2, h3⟩ := ih td htd
        exact ⟨by simp [h1], h2, h3⟩
      · simp only [hf, if_false] at htd
        by_cases hu : discardUnscoped c2
        · simp only [hu, if_true] at htd
          obtain ⟨h1, h2, h3⟩ := ih td htd
          exact ⟨by simp [h1], h2, h3⟩
        · simp only [hu, if_false] at htd
          by_cases hr : isReady tbl filt tns emit c2
          · simp only [hr, if_true] at htd
            rcases List.mem_cons.1 htd with he | he
            · subst he
              exact ⟨by simp, by simp [keptCandidate, hf, hu], hr⟩
            · obtain ⟨h1, h2, h3⟩ := ih td he
              exact ⟨by simp [h1], h2, h3⟩
          · simp only [hr, if_false] at htd
            obtain ⟨h1, h2, h3⟩ := ih td htd
            exact ⟨by simp [h1], h2, h3⟩

/-- The re-queued candidates form a sublist of the scanned list. -/
theorem sortPass_new_sublist (tbl : Nat → OComp) (filt : Option String)
    (tns : Nat) (emit cands : List OComp) :
    (sortPass tbl filt tns emit cands).2.Sublist cands := by
  induction cands with
  | nil => simp [sortPass]
  | cons c2 rest ih =>
      simp only [sortPass]
      by_cases hf : discardForeign c2 tns
      · simp only [hf, if_true]
        exact ih.trans (List.sublist_cons_self c2 rest)
      · simp only [hf, if_false]
        by_cases hu : discardUnscoped c2
        · simp only [hu, if_true]
          exact ih.trans (List.sublist_cons_self c2 rest)
        · simp only [hu, if_false]
          by_cases hr : isReady tbl filt tns emit c2
          · simp only [hr, if_true]
            exact ih.trans (List.sublist_cons_self c2 rest)
          · simp only [hr, if_false]
            exact ih.cons₂ c2

/-- Ready plus re-queued exactly account for the kept candidates. -/
theorem sortPass_length (tbl : Nat → OComp) (filt : Option String)
    (tns : Nat) (emit cands : List OComp) :
    (sortPass tbl filt tns emit cands).1.length
      + (sortPass tbl filt tns emit cands).2.length
      = (cands.filter (keptCandidate tns)).length := by
  induction cands with
  | nil => simp [sortPass]
  | cons c2 rest ih =>
      have h := ih
      by_cases hf : discardForeign c2 tns
      · simp [sortPass, List.filter_cons, hf, keptCandidate] <;> omega
      · by_cases hu : discardUnscoped c2
        · simp [sortPass, List.filter_cons, hf, hu, keptCandidate] <;> omega
        · by_cases hr : isReady tbl filt tns emit c2
          · simp [sortPass, List.filter_cons, hf, hu, hr, keptCandidate] <;>
              omega
          · simp [sortPass, List.filter_cons, hf, hu, hr, keptCandidate] <;>
              omega

/-- A kept candidate is either marked ready or re-queued, never lost. -/
theorem sortPass_cover (tbl : Nat → OComp) (filt : Option String)
    (tns : Nat) (emit cands : List OComp) (td : OComp)
    (htd : td ∈ cands) (hk : keptCandidate tns td = true) :
    td ∈ (sortPass tbl filt tns emit cands).1
    ∨ td ∈ (sortPass tbl filt tns emit cands).2 := by
  induction cands with
  | nil => cases htd
  | cons c2 rest ih =>
      simp only [sortPass]
      rcases List.mem_cons.1 htd with he | he
      · subst he
        have hf : discardForeign td tns = false := by
          simp only [keptCandidate, Bool.and_eq_true, Bool.not_eq_true']
            at hk
          exact hk.1
        have hu : discardUnscoped td = false := by
          simp only [keptCandidate, Bool.and_eq_true, Bool.not_eq_true']
            at hk
          exact hk.2
        simp only [hf, hu, Bool.false_eq_true, if_false]
        by_cases hr : isReady tbl filt tns emit td
        · simp only [hr, if_true]
          exact .inl (by simp)
        · simp only [hr, if_false]
          exact .inr (by simp)
      · rcases ih he with h1 | h1 <;>
          by_cases hf : discardForeign c2 tns <;>
          by_cases hu : discardUnscoped c2 <;>
          by_cases hr : isReady tbl filt tns emit c2 <;>
          simp [hf, hu, hr, h1]

/-! Facts about the stable sort used on each ready cohort. -/

/-- Membership is preserved by stable insertion. -/
theorem stableInsert_mem {α : Type} (le : α → α → Bool) (a x : α)
    (l : List α) : x ∈ stableInsert le a l ↔ x = a ∨ x ∈ l := by
  induction l with
  | nil => simp [stableInsert]
  | cons b rest ih =>
      by_cases h : le b a
      · simp [stableInsert, h, ih] <;> tauto
      · simp [stableInsert, h] <;> tauto

/-- Stable insertion adds exactly one element. -/
theorem stableInsert_length {α : Type} (le : α → α → Bool) (a : α)
    (l : List α) : (stableInsert le a l).length = l.length + 1 := by
  induction l with
  | nil => simp [stableInsert]
  | cons b rest ih =>
      simp only [stableInsert]
      by_cases h : le b a <;> simp [h, ih]

/-- Folding stable insertions accumulates exactly the input elements. -/
theorem stableSortBy_foldl_mem {α : Type} (le : α → α → Bool) (x : α) :
    ∀ (l acc : List α),
    x ∈ l.foldl (fun acc2 y => stableInsert le y acc2) acc
      ↔ x ∈ acc ∨ x ∈ l := by
  intro l
  induction l with
  | nil => simp
  | cons b rest ih =>
      intro acc
      simp only [List.foldl_cons, ih, stableInsert_mem, List.mem_cons]
      tauto

/-- Membership is preserved by the stable sort. -/
theorem stableSortBy_mem {α : Type} (le : α → α → Bool) (x : α)
    (l : List α) : x ∈ stableSortBy le l ↔ x ∈ l := by
  simp [stableSortBy, stableSortBy_foldl_mem]

/-- Length is preserved by the stable sort. -/
theorem stableSortBy_length {α : Type} (le : α → α → Bool)
    (l : List α) : (stableSortBy le l).length = l.length := by
  have h : ∀ (l2 acc : List α),
      (l2.foldl (fun acc2 y => stableInsert le y acc2) acc).length
        = acc.length + l2.length := by
    intro l2
    induction l2 with
    | nil => simp
    | cons b rest ih =>
        intro acc
        simp only [List.foldl_cons, ih, stableInsert_length,
                   List.length_cons]
        omega
  simpa [stableSortBy] using h l []

/-- Appending a cohort whose qualifying dependencies all sit in the
existing order preserves the ordering guarantee. -/
theorem orderSound_append (tbl : Nat → OComp) (filt : Option String)
    (tns : Nat) (emit add : List OComp)
    (h1 : orderSound tbl filt tns emit)
    (h2 : ∀ c2 ∈ add, ∀ d ∈ c2.deps,
       depQualifies tbl filt tns c2 d = true → tbl d ∈ emit) :
    orderSound tbl filt tns (emit ++ add) := by
  intro pre c2 post heq d hd hq
  rcases List.append_eq_append_iff.1 heq with ⟨mid, hpre, hadd⟩
    | ⟨mid, hemit, hcp⟩
  · have hc2 : c2 ∈ add := by
      rw [hadd]
      simp
    rw [hpre]
    exact List.mem_append_left mid (h2 c2 hc2 d hd hq)
  · match mid, hcp with
    | [], hcp =>
        have hadd : add = c2 :: post := by simpa using hcp.symm
        have hc2 : c2 ∈ add := by
          rw [hadd]
          simp
        have : emit = pre := by simpa using hemit
        exact this ▸ h2 c2 hc2 d hd hq
    | x :: mid2, hcp =>
        have hx : c2 = x := by
          have := hcp
          simp only [List.cons_append, List.cons.injEq] at this
          exact this.1
        subst hx
        exact h1 pre c2 mid2 (by simpa using hemit) d hd hq

/-- The orderer never returns within fuel exceeding the candidate count:
each productive scan strictly shrinks the candidate list, so the loop
always ends in success or in the stagnation error. -/
theorem sortByDependencyAux_isSome (tbl : Nat → OComp)
    (filt : Option String) (tns : Nat) (fuel : Nat) :
    ∀ (emit cands : List OComp), cands.length < fuel →
    (sortByDependencyAux tbl filt tns fuel emit cands).isSome := by
  induction fuel with
  | zero => intro _ cands h; cases h
  | succ f ih =>
      intro emit cands h
      match cands with
      | [] => simp [sortByDependencyAux]
      | c :: rest =>
          simp only [sortByDependencyAux]
          by_cases hp : (sortPass tbl filt tns emit (c :: rest)).2 = c :: rest
          · simp [hp]
          · simp only [hp, if_false]
            apply ih
            have hsub := sortPass_new_sublist tbl filt tns emit (c :: rest)
            have hlt : (sortPass tbl filt tns emit (c :: rest)).2.length
                < (c :: rest).length := by
              rcases lt_or_eq_of_le hsub.length_le with hlt | heq
              · exact hlt
              · exact absurd (hsub.eq_of_length heq) hp
            omega

/-- Along a successful run, the ordering guarantee is maintained: each
cohort is appended only once its qualifying dependencies are already in
the order. -/
theorem sortByDependencyAux_sound (tbl : Nat → OComp)
    (filt : Option String) (tns : Nat) (fuel : Nat) :
    ∀ (emit cands order : List OComp),
    sortByDependencyAux tbl filt tns fuel emit cands = some (.ok order) →
    orderSound tbl filt tns emit → orderSound tbl filt tns order := by
  induction fuel with
  | zero => intro _ _ _ h; cases h
  | succ f ih =>
      intro emit cands order h hs
      match cands with
      | [] =>
          simp only [sortByDependencyAux, Option.some.injEq,
                     Except.ok.injEq] at h
          exact h ▸ hs
      | c :: rest =>
          simp only [sortByDependencyAux] at h
          by_cases hp : (sortPass tbl filt tns emit (c :: rest)).2 = c :: rest
          · simp [hp] at h
          · simp only [hp, if_false] at h
            refine ih _ _ _ h (orderSound_append tbl filt tns emit _ hs ?_)
            intro c2 hc2 d hd hq
            have hc2m := (stableSortBy_mem byBestNCName c2 _).1 hc2
            have hspec := sortPass_ready_spec tbl filt tns emit (c :: rest)
              c2 hc2m
            exact (isReady_iff tbl filt tns emit c2).1 hspec.2.2 d hd hq

/-- Core of claim C3's completeness half: with dependencies closed under
kept candidates and a rank certifying acyclicity, the orderer succeeds
and emits one entry per kept candidate. -/
theorem sortByDependencyAux_complete (tbl : Nat → OComp)
    (filt : Option String) (tns : Nat) (rank : OComp → Nat) (n : Nat) :
    ∀ (cands : List OComp), cands.length ≤ n →
    ∀ (fuel : Nat) (emit : List OComp), cands.length < fuel →
    (∀ td ∈ cands, keptCandidate tns td = true → ∀ d ∈ td.deps,
       depQualifies tbl filt tns td d = true →
       (tbl d ∈ emit ∨ tbl d ∈ cands)
       ∧ keptCandidate tns (tbl d) = true) →
    (∀ td ∈ cands, keptCandidate tns td = true → ∀ d ∈ td.deps,
       depQualifies tbl filt tns td d = true → rank (tbl d) < rank td) →
    ∃ order, sortByDependencyAux tbl filt tns fuel emit cands
        = some (.ok order)
      ∧ order.length
          = emit.length + (cands.filter (keptCandidate tns)).length := by
  induction n with
  | zero =>
      intro cands hn fuel emit hfuel _ _
      have hw : cands = [] := List.length_eq_zero.1 (Nat.le_zero.1 hn)
      subst hw
      match fuel, hfuel with
      | f + 1, _ => exact ⟨emit, by simp [sortByDependencyAux], by simp⟩
  | succ n ih =>
      intro cands hn fuel emit hfuel hcov hrank
      match cands with
      | [] =>
          match fuel, hfuel with
          | f + 1, _ => exact ⟨emit, by simp [sortByDependencyAux], by simp⟩
      | c :: rest =>
          match fuel, hfuel with
          | f + 1, hfuel =>
          have hprog : (sortPass tbl filt tns emit (c :: rest)).2
              ≠ c :: rest := by
            by_cases hall : ∀ td ∈ c :: rest, keptCandidate tns td = true
            · obtain ⟨m, hm, hmin⟩ := list_exists_min_image rank (c :: rest)
                (by simp)
              have hmready : isReady tbl filt tns emit m = true := by
                rw [isReady_iff]
                intro d hd hq
                rcases (hcov m hm (hall m hm) d hd hq).1 with h1 | h1
                · exact h1
                · exfalso
                  have h2 := hrank m hm (hall m hm) d hd hq
                  have h3 := hmin (tbl d) h1
                  omega
              intro he
              have hspec := sortPass_new_spec tbl filt tns emit (c :: rest)
                m (by rw [he]; exact hm)
              rw [hmready] at hspec
              cases hspec.2.2
            · intro he
              push_neg at hall
              obtain ⟨td, htd, hk⟩ := hall
              have hspec := sortPass_new_spec tbl filt tns emit (c :: rest)
                td (by rw [he]; exact htd)
              exact hk hspec.2.1
          have hsub := sortPass_new_sublist tbl filt tns emit (c :: rest)
          have hlen : (sortPass tbl filt tns emit (c :: rest)).2.length
              < (c :: rest).length := by
            rcases lt_or_eq_of_le hsub.length_le with hlt | heq
            · exact hlt
            · exact absurd (hsub.eq_of_length heq) hprog
          have hnb : (sortPass tbl filt tns emit (c :: rest)).2.length
              ≤ n := by
            have h1 := hlen
            have h2 := hn
            simp only [List.length_cons] at h1 h2
            omega
          have hfb : (sortPass tbl filt tns emit (c :: rest)).2.length
              < f := by
            have h1 := hlen
            have h2 := hfuel
            simp only [List.length_cons] at h1 h2
            omega
          have hcov2 : ∀ td ∈ (sortPass tbl filt tns emit (c :: rest)).2,
              keptCandidate tns td = true → ∀ d ∈ td.deps,
              depQualifies tbl filt tns td d = true →
              (tbl d ∈ emit
                 ++ stableSortBy byBestNCName
                      (sortPass tbl filt tns emit (c :: rest)).1
               ∨ tbl d ∈ (sortPass tbl filt tns emit (c :: rest)).2)
              ∧ keptCandidate tns (tbl d) = true := by
            intro td htd hk d hd hq
            have hspec := sortPass_new_spec tbl filt tns emit (c :: rest)
              td htd
            obtain ⟨hmem, hkept⟩ := hcov td hspec.1 hk d hd hq
            refine ⟨?_, hkept⟩
            rcases hmem with h1 | h1
            · exact .inl (List.mem_append_left _ h1)
            · rcases sortPass_cover tbl filt tns emit (c :: rest) (tbl d)
                h1 hkept with h2 | h2
              · exact .inl (List.mem_append_right _
                  ((stableSortBy_mem byBestNCName (tbl d) _).2 h2))
              · exact .inr h2
          have hrank2 : ∀ td ∈ (sortPass tbl filt tns emit (c :: rest)).2,
              keptCandidate tns td = true → ∀ d ∈ td.deps,
              depQualifies tbl filt tns td d = true →
              rank (tbl d) < rank td := by
            intro td htd hk d hd hq
            have hspec := sortPass_new_spec tbl filt tns emit (c :: rest)
              td htd
            exact hrank td hspec.1 hk d hd hq
          obtain ⟨order, hord, hlen2⟩ := ih
            (sortPass tbl filt tns emit (c :: rest)).2 hnb f
            (emit ++ stableSortBy byBestNCName
               (sortPass tbl filt tns emit (c :: rest)).1) hfb hcov2 hrank2
          refine ⟨order, ?_, ?_⟩
          · simp only [sortByDependencyAux, hprog, if_false]
            exact hord
          · have hfilt : ((sortPass tbl filt tns emit (c :: rest)).2.filter
                (keptCandidate tns))
                = (sortPass tbl filt tns emit (c :: rest)).2 :=
              List.filter_eq_self.mpr (fun a ha =>
                (sortPass_new_spec tbl filt tns emit (c :: rest) a ha).2.1)
            have hpl := sortPass_length tbl filt tns emit (c :: rest)
            rw [hlen2, hfilt, List.length_append,
                stableSortBy_length byBestNCName]
            omega

/-- C3: whenever `SortByDependency` returns an order, no component
precedes any of its same-namespace, filter-passing, non-ur-type,
non-self dependencies in it; and on candidates whose qualifying
dependency graph is closed under kept candidates and acyclic (certified
by a rank), it succeeds with exactly one entry per scoped,
home-namespace candidate (foreign and unscoped candidates being
discarded, never emitted). -/
theorem sortByDependency_sound_and_complete (tbl : Nat → OComp)
    (filt : Option String) (tns : Nat) :
    (∀ (components order : List OComp),
       sortByDependency tbl filt tns components = .ok order →
       orderSound tbl filt tns order)
    ∧ (∀ (rank : OComp → Nat) (components : List OComp),
       (∀ td ∈ components, keptCandidate tns td = true → ∀ d ∈ td.deps,
          depQualifies tbl filt tns td d = true →
          tbl d ∈ components ∧ keptCandidate tns (tbl d) = true) →
       (∀ td ∈ components, keptCandidate tns td = true → ∀ d ∈ td.deps,
          depQualifies tbl filt tns td d = true → rank (tbl d) < rank td) →
       ∃ order, sortByDependency tbl filt tns components = .ok order
         ∧ order.length
             = (components.filter (keptCandidate tns)).length) := by
  constructor
  · intro comps order h
    have hsome := sortByDependencyAux_isSome tbl filt tns
      (comps.length + 1) [] comps (by omega)
    obtain ⟨r, hr⟩ := Option.isSome_iff_exists.1 hsome
    have hro : r = .ok order := by
      simpa [sortByDependency, hr] using h
    subst hro
    refine sortByDependencyAux_sound tbl filt tns _ [] comps order hr ?_
    intro pre c2 post heq
    exact absurd heq (by simp)
  · intro rank comps hcov hrank
    obtain ⟨order, hord, hlen⟩ := sortByDependencyAux_complete tbl filt tns
      rank comps.length comps le_rfl (comps.length + 1) [] (by omega)
      (fun td htd hk d hd hq =>
        ⟨.inr (hcov td htd hk d hd hq).1, (hcov td htd hk d hd hq).2⟩)
      hrank
    exact ⟨order, by simp [sortByDependency, hord], by simpa using hlen⟩

/-- Witness for C3 at a two-component table: the order places `oB`
before its dependent `oA`, the soundness half puts `oA`'s dependency in
the preceding segment, and the completeness half emits both kept
candidates. -/
theorem sortByDependency_sound_and_complete_witness :
    sortByDependency otbl none 10 [oA, oB] = .ok [oB, oA]
    ∧ otbl 1 ∈ [oB]
    ∧ ∃ order, sortByDependency otbl none 10 [oA, oB] = .ok order
        ∧ order.length
            = (([oA, oB]).filter (keptCandidate 10)).length := by
  have h1 : sortByDependency otbl none 10 [oA, oB] = .ok [oB, oA] := rfl
  have hsound := (sortByDependency_sound_and_complete otbl none 10).1
    [oA, oB] [oB, oA] h1 [oB] oA [] rfl 1 (by decide) (by decide)
  have hcomp := (sortByDependency_sound_and_complete otbl none 10).2
    (fun c => c.id) [oA, oB] (by decide) (by decide)
  exact ⟨h1, hsound, hcomp⟩

/-- C10: `NamespaceForURI` raises `pyxb.LogicError` on a `None` URI even
when `create_if_missing` is true, leaving the state untouched; an absent
namespace is obtainable only from the dedicated factory, which indeed
produces a URI-less namespace. -/
theorem namespaceForURI_none_raises (st : RegState) (create : Bool) :
    namespaceForURI st none create
      = (st, .error "LogicError: Cannot lookup absent namespaces")
    ∧ (createAbsentNamespace st).2.uri = none := by
  exact ⟨rfl, rfl⟩

end PyxbNamespace
